import Mathlib

/-!
Shallow embedding of the type-erased container iteration example
(KDAB `patent_defense` repository: `types.h` and `basictest.cpp`).

Memory model: opaque `void*` cells are modelled as integer addresses.  A
`Heap` maps addresses to integer contents and carries an allocation
counter.  Two independent heaps are threaded through the operations: one
for boxed iterator objects (the cells written by `IteratorAPI::assign`
and mutated by `IteratorAPI::advance`) and one for the reference-count
cells (`new std::atomic<int>{}`).

Containers: a concrete container type `T` is modelled by a `Container α`:
its iterator representation (raw pointer into contiguous storage, or a
standalone class that must be heap-boxed — the two `IteratorAPI`
specialisations in `types.h`), its `typeid` hash, its element `typeid`
hash, its iterator category, the address of its storage, and its elements
in insertion order.  Element number `i` of a container based at address
`b` lives at address `b + i`.

Assertions (`assert` in `types.h`) are modelled as `Option`: `none` means
the assertion fired and the operation fatally aborted.
-/

namespace TypeErasure

/-- A heap of integer-valued cells addressed by integers, with a bump
allocator.  Models the C++ free store as used by `types.h`. -/
structure Heap where
  next : Int
  mem : Int → Int

/-- Pointwise update of a memory function. -/
def upd (m : Int → Int) (a v : Int) : Int → Int :=
  fun x => if x = a then v else m x

def Heap.read (h : Heap) (a : Int) : Int := h.mem a

def Heap.write (h : Heap) (a v : Int) : Heap := ⟨h.next, upd h.mem a v⟩

/-- Allocate a fresh cell holding `v`; returns its address. -/
def Heap.alloc (h : Heap) (v : Int) : Int × Heap :=
  (h.next, ⟨h.next + 1, upd h.mem h.next v⟩)

/-- The two `IteratorAPI` specialisations of `types.h`: `const value_type*`
(the iterator is a raw pointer to contiguous storage) and the generic one
(the iterator is a standalone class, copied onto the heap). -/
inductive IterRep where
  | ptr
  | boxed
deriving DecidableEq

/-- Source: `std::iterator_traits<T::const_iterator>::iterator_category`, as
dispatched on by `CapabilitiesImpl`. -/
inductive IterCategory where
  | forward
  | bidirectional
  | randomAccess
deriving DecidableEq

/-- enum IteratorCapability -/
def ForwardCapability : Nat := 1
def BiDirectionalCapability : Nat := 2
def RandomAccessCapability : Nat := 4

/-- Source: `CapabilitiesImpl<T, Category>::IteratorCapabilities`. -/
def capsOf : IterCategory → Nat
  | IterCategory.forward => ForwardCapability
  | IterCategory.bidirectional => BiDirectionalCapability ||| ForwardCapability
  | IterCategory.randomAccess =>
      RandomAccessCapability ||| BiDirectionalCapability ||| ForwardCapability

/-- A concrete container type together with one concrete instance of it:
everything `SequentialIterableImplementation`'s template constructor reads
off `T` and `&t`. -/
structure Container (α : Type) where
  /-- which `IteratorAPI` specialisation `T::const_iterator` selects -/
  rep : IterRep
  /-- Source: `typeid(T).hash_code()` -/
  tag : Nat
  /-- Source: `typeid(T::value_type).hash_code()` -/
  elemTag : Nat
  /-- Source: `T::const_iterator`'s iterator category -/
  cat : IterCategory
  /-- the address `&t` of the container; element `i` lives at `base + i` -/
  base : Int
  /-- the elements of the instance, in insertion order -/
  elems : List α
deriving DecidableEq

/-- struct VariantData: runtime type id plus type-erased data pointer. -/
structure VariantData where
  metaTypeId : Nat
  data : Int
deriving DecidableEq

/-- Read the element of `c` stored at address `a` (typed view of the
container's storage; element `i` is at `c.base + i`). -/
def readElem {α : Type} (c : Container α) (a : Int) : Option α :=
  if a < c.base then none else c.elems[(a - c.base).toNat]?

/-! ### IteratorAPI: the per-representation iterator operations

Each operation acts on the opaque iterator slot (`void *_iterator`).
For `rep = ptr` the slot holds the element address itself; for
`rep = boxed` it holds the address of a heap cell containing the boxed
iterator, modelled by its position in the container. -/

/-- Source: `IteratorAPI::assign(void**, const_iterator)`: store a typed iterator
positioned at `p` into the slot.  `ptr`: store the element address
directly.  `boxed`: heap-allocate a copy of the iterator. -/
def assignPos {α : Type} (c : Container α) (h : Heap) (p : Int) : Int × Heap :=
  match c.rep with
  | IterRep.ptr => (c.base + p, h)
  | IterRep.boxed => h.alloc p

/-- Source: `IteratorAPI::advance(void**, int)`: `ptr`: pointer arithmetic, result
stored back into the slot.  `boxed`: `std::advance` on the boxed iterator,
mutating the heap cell in place. -/
def advanceSlot {α : Type} (c : Container α) (h : Heap) (s : Int) (step : Int) :
    Int × Heap :=
  match c.rep with
  | IterRep.ptr => (s + step, h)
  | IterRep.boxed => (s, h.write s (h.read s + step))

/-- Source: `IteratorAPI::getData(void* const*)`: address of the current element.
`ptr`: the slot itself.  `boxed`: dereference the boxed iterator and take
the element's address. -/
def getDataSlot {α : Type} (c : Container α) (h : Heap) (s : Int) : Int :=
  match c.rep with
  | IterRep.ptr => s
  | IterRep.boxed => c.base + h.read s

/-- Source: `IteratorAPI::equal(void* const*, void* const*)`: `ptr`: compare the
stored addresses.  `boxed`: compare the boxed iterators. -/
def equalSlot {α : Type} (c : Container α) (h : Heap) (s₁ s₂ : Int) : Bool :=
  match c.rep with
  | IterRep.ptr => s₁ == s₂
  | IterRep.boxed => h.read s₁ == h.read s₂

/-- Source: `IteratorAPI::assign(void**, void* const*)` (the copy used by
`copyIterImpl`): `ptr`: copy the stored address.  `boxed`: heap-allocate
a fresh copy of the pointee. -/
def copySlot {α : Type} (c : Container α) (h : Heap) (src : Int) : Int × Heap :=
  match c.rep with
  | IterRep.ptr => (src, h)
  | IterRep.boxed => h.alloc (h.read src)

/-! ### SequentialIterableImplementation -/

/-- The data members of `SequentialIterableImplementation`.  The function
pointers generated from `T` are represented by passing the `Container α`
the instance was built over to each operation. -/
structure Impl where
  _iterable : Int
  _iterator : Int
  _metaType_id : Nat
  _iteratorCapabilities : Nat
deriving DecidableEq

/-- Source: `typeid(Variant).hash_code()` — the model's fixed runtime id for the
`Variant` type itself (used by `operator*` to detect nested variants). -/
def variantTag : Nat := 911

/-- Source: `typeid(void).hash_code()` — the id stored by the default ctor. -/
def voidTag : Nat := 0

/-- Source: `template<class T> SequentialIterableImplementation(const T *p)`:
record `&t`, null iterator slot, the element type id and the capability
bitmask computed from the iterator category. -/
def mkImpl {α : Type} (c : Container α) : Impl :=
  ⟨c.base, 0, c.elemTag, capsOf c.cat⟩

/-- Source: `moveToBegin()`: assign a typed `begin()` iterator (position 0) into
the slot. -/
def Impl.moveToBegin {α : Type} (c : Container α) (h : Heap) (m : Impl) :
    Impl × Heap :=
  let sh := assignPos c h 0
  ({ m with _iterator := sh.1 }, sh.2)

/-- Source: `moveToEnd()`: assign a typed `end()` iterator (position `size`). -/
def Impl.moveToEnd {α : Type} (c : Container α) (h : Heap) (m : Impl) :
    Impl × Heap :=
  let sh := assignPos c h (c.elems.length : Int)
  ({ m with _iterator := sh.1 }, sh.2)

/-- Source: `_advance(&_iterator, i)` after the assertion passed. -/
def Impl.advanceCore {α : Type} (c : Container α) (h : Heap) (m : Impl)
    (i : Int) : Impl × Heap :=
  let sh := advanceSlot c h m._iterator i
  ({ m with _iterator := sh.1 }, sh.2)

/-- Source: `advance(int i)` with its precondition
`assert(i > 0 || _iteratorCapabilities & BiDirectionalCapability)`:
`none` models the assertion firing (fatal abort). -/
def Impl.advance {α : Type} (c : Container α) (h : Heap) (m : Impl) (i : Int) :
    Option (Impl × Heap) :=
  if 0 < i ∨ m._iteratorCapabilities &&& BiDirectionalCapability ≠ 0 then
    some (m.advanceCore c h i)
  else
    none

/-- Source: `equal(other)`: `_equalIter(&_iterator, &other._iterator)`. -/
def Impl.equal {α : Type} (c : Container α) (h : Heap) (m₁ m₂ : Impl) : Bool :=
  equalSlot c h m₁._iterator m₂._iterator

/-- Source: `getCurrent()`: `_get(&_iterator, _metaType_id)` =
`VariantData(metaTypeId, IteratorAPI::getData(iterator))`. -/
def Impl.getCurrent {α : Type} (c : Container α) (h : Heap) (m : Impl) :
    VariantData :=
  ⟨m._metaType_id, getDataSlot c h m._iterator⟩

/-- Source: `size()`: `assert(_iterable); return _size(_iterable);` where
`ContainerAPI<T>::size` is `std::distance(t->begin(), t->end())`, i.e. the
number of iterator steps from begin to end — the element count.  `none`
models the assertion firing on a null container reference. -/
def Impl.size {α : Type} (c : Container α) (m : Impl) : Option Int :=
  if m._iterable = 0 then none else some (c.elems.length : Int)

/-- Source: `copy(other)`: `*this = other; _copyIter(&_iterator, &other._iterator);`
— adopt all of `other`'s fields, then rebuild the iterator slot through
the table's copy entry point (detached fresh heap copy for boxed). -/
def Impl.copy {α : Type} (c : Container α) (h : Heap) (src : Impl) :
    Impl × Heap :=
  let sh := copySlot c h src._iterator
  ({ src with _iterator := sh.1 }, sh.2)

/-- Logical position denoted by an iterator slot: for `ptr` the offset of
the stored address from the container base, for `boxed` the contents of
the boxed iterator cell. -/
def slotPos {α : Type} (c : Container α) (h : Heap) (s : Int) : Int :=
  match c.rep with
  | IterRep.ptr => s - c.base
  | IterRep.boxed => h.read s

/-- Logical position of an implementation's cursor. -/
def Impl.pos {α : Type} (c : Container α) (h : Heap) (m : Impl) : Int :=
  slotPos c h m._iterator

/-! ### Registry and Variant -/

/-- Source: `std::map<std::size_t, SequentialIterableImplementation>
converterRegistry`, as an association list. -/
abbrev Registry := List (Nat × Impl)

/-- Source: `converterRegistry.find(t)`. -/
def Registry.findTag : Registry → Nat → Option Impl
  | [], _ => none
  | p :: r, t => if p.1 = t then some p.2 else Registry.findTag r t

/-- Source: `converterRegistry.insert(make_pair(t, i))`: `std::map::insert` does
not overwrite — if the key is present the call is a no-op. -/
def Registry.insertTag (r : Registry) (t : Nat) (i : Impl) : Registry :=
  match r.findTag t with
  | some _ => r
  | none => r ++ [(t, i)]

/-- The registry produced by a sequence of registration events applied to
the empty registry. -/
def regOfList (l : List (Nat × Impl)) : Registry :=
  l.foldl (fun r p => r.insertTag p.1 p.2) []

/-- The table paired with the first occurrence of a tag in a registration
sequence. -/
def firstTable : List (Nat × Impl) → Nat → Option Impl
  | [], _ => none
  | p :: l, t => if p.1 = t then some p.2 else firstTable l t

/-- Source: `template<typename T> Variant(const T &t)` for a container `T`:
store `(typeid(T).hash_code(), &t)` and (idempotently) register the
operation table built from `&t`. -/
def Variant.ofContainer {α : Type} (c : Container α) (r : Registry) :
    VariantData × Registry :=
  (⟨c.tag, c.base⟩, r.insertTag c.tag (mkImpl c))

/-- Source: `Variant::as<SequentialIterable>()`:
`assert(converterRegistry.find(id) != end); return SequentialIterable{converterRegistry[id]};`
— `none` models the assertion firing (fatal abort); otherwise the
`SequentialIterable` wraps the registry's stored implementation, taken
wholesale (including its `_iterable` container address). -/
def Variant.asSequentialIterable (r : Registry) (v : VariantData) :
    Option Impl :=
  r.findTag v.metaTypeId

/-- Source: `SequentialIterable::size()`: forwards to `m_impl.size()`. -/
def SequentialIterable.size {α : Type} (c : Container α) (m : Impl) :
    Option Int :=
  m.size c

/-- Source: `SequentialIterable::canReverseIterate()`:
`_iteratorCapabilities & BiDirectionalCapability`. -/
def SequentialIterable.canReverseIterate (m : Impl) : Bool :=
  m._iteratorCapabilities &&& BiDirectionalCapability != 0

/-! ### const_iterator -/

/-- Source: `SequentialIterable::const_iterator`: an implementation by value plus
the address of the shared `std::atomic<int>` reference count cell. -/
structure Cursor where
  m_impl : Impl
  ref : Int
deriving DecidableEq

/-- Source: `SequentialIterable::begin()`:
`const_iterator it(*this, new std::atomic<int>{}); it.begin(); return it;`
— the new count cell is value-initialised to 0 and the constructor does
`fetch_add(1)`; then `m_impl.moveToBegin()`. -/
def SequentialIterable.beginC {α : Type} (c : Container α) (ih rh : Heap)
    (m : Impl) : Cursor × Heap × Heap :=
  let ar := rh.alloc 0
  let rh₂ := ar.2.write ar.1 (ar.2.read ar.1 + 1)
  let mh := m.moveToBegin c ih
  (⟨mh.1, ar.1⟩, mh.2, rh₂)

/-- Source: `SequentialIterable::end()`: as `begin()` but `m_impl.moveToEnd()`. -/
def SequentialIterable.endC {α : Type} (c : Container α) (ih rh : Heap)
    (m : Impl) : Cursor × Heap × Heap :=
  let ar := rh.alloc 0
  let rh₂ := ar.2.write ar.1 (ar.2.read ar.1 + 1)
  let mh := m.moveToEnd c ih
  (⟨mh.1, ar.1⟩, mh.2, rh₂)

/-- Source: `operator++()`: `m_impl.advance(1)` in place; the assertion `1 > 0`
passes, leaving `advanceCore`'s effect. -/
def Cursor.preInc {α : Type} (c : Container α) (ih : Heap) (cur : Cursor) :
    Cursor × Heap :=
  let mh := cur.m_impl.advanceCore c ih 1
  (⟨mh.1, cur.ref⟩, mh.2)

/-- Source: `operator--()`: `m_impl.advance(-1)` in place; `none` models the
capability assertion firing on a forward-only cursor. -/
def Cursor.preDec {α : Type} (c : Container α) (ih : Heap) (cur : Cursor) :
    Option (Cursor × Heap) :=
  match cur.m_impl.advance c ih (-1) with
  | some mh => some (⟨mh.1, cur.ref⟩, mh.2)
  | none => none

/-- Source: `operator++(int)`: build a detached implementation via
`impl.copy(m_impl)`, advance the original by 1 (assertion passes), and
return a brand-new cursor over the copy with a fresh count cell.
Result: (returned value-copy, original after increment, heaps). -/
def Cursor.postInc {α : Type} (c : Container α) (ih rh : Heap) (cur : Cursor) :
    Cursor × Cursor × Heap × Heap :=
  let ch := cur.m_impl.copy c ih
  let mh := cur.m_impl.advanceCore c ch.2 1
  let ar := rh.alloc 0
  let rh₂ := ar.2.write ar.1 (ar.2.read ar.1 + 1)
  (⟨ch.1, ar.1⟩, ⟨mh.1, cur.ref⟩, mh.2, rh₂)

/-- Source: `operator+(int j)`: `impl.copy(m_impl); impl.advance(j);` then a
brand-new cursor with a fresh count cell; `none` models the capability
assertion firing inside `advance(j)`. -/
def Cursor.add {α : Type} (c : Container α) (ih rh : Heap) (cur : Cursor)
    (j : Int) : Option (Cursor × Heap × Heap) :=
  let ch := cur.m_impl.copy c ih
  match ch.1.advance c ch.2 j with
  | some mh =>
      let ar := rh.alloc 0
      let rh₂ := ar.2.write ar.1 (ar.2.read ar.1 + 1)
      some (⟨mh.1, ar.1⟩, mh.2, rh₂)
  | none => none

/-- Copy constructor `const_iterator(const const_iterator &other)`:
copy `m_impl` by value, share the count cell, `fetch_add(1)`. -/
def Cursor.aliasCopy (rh : Heap) (cur : Cursor) : Cursor × Heap :=
  (⟨cur.m_impl, cur.ref⟩, rh.write cur.ref (rh.read cur.ref + 1))

/-- Copy assignment `operator=(const const_iterator &other)`:
`if (!m_impl.equal(other.m_impl)) { m_impl = other.m_impl; ref = other.ref; }
ref->fetch_add(1);` — adoption of the source's implementation struct (a
plain by-value copy, slot included) and count cell is guarded by an
equality test on the underlying iterators; the (possibly adopted) count
cell is then incremented. -/
def Cursor.assign {α : Type} (c : Container α) (ih rh : Heap)
    (target other : Cursor) : Cursor × Heap :=
  if target.m_impl.equal c ih other.m_impl then
    (⟨target.m_impl, target.ref⟩, rh.write target.ref (rh.read target.ref + 1))
  else
    (⟨other.m_impl, other.ref⟩, rh.write other.ref (rh.read other.ref + 1))

/-- Destructor `~const_iterator()`:
`if (!ref->fetch_sub(1)) { m_impl.destroyIter(); delete ref; }` —
`fetch_sub` returns the value held *before* the decrement.  The returned
`Bool` records whether the table's destroy entry point was invoked. -/
def Cursor.drop {α : Type} (_c : Container α) (ih rh : Heap) (cur : Cursor) :
    Bool × Heap × Heap :=
  let old := rh.read cur.ref
  let rh₁ := rh.write cur.ref (old - 1)
  if old = 0 then (true, ih, rh₁) else (false, ih, rh₁)

/-- Source: `operator*()`: get the current `VariantData`; if its id is the id of
`Variant` itself, copy the stored `Variant` out of the container (no
double wrapping — `readAsVariant` is the typed read
`*reinterpret_cast<const Variant*>(d.data)`); otherwise wrap the id and
element address into a fresh `Variant`. -/
def derefOp {α : Type} (c : Container α) (readAsVariant : Int → Option VariantData)
    (h : Heap) (m : Impl) : Option VariantData :=
  let d := m.getCurrent c h
  if d.metaTypeId = variantTag then readAsVariant d.data else some d

/-! ### Traversals (the loops of `basictest.cpp`) -/

/-- Source: `for (; it != endIt; ++it) print(*it);` with explicit fuel: stop when
the guard `it != endIt` fails, otherwise read the current element and
pre-increment. -/
def loopFwd {α : Type} (c : Container α) : Heap → Impl → Impl → Nat → List (Option α)
  | _, _, _, 0 => []
  | h, m, e, fuel + 1 =>
    if m.equal c h e then []
    else
      match m.advance c h 1 with
      | some mh => readElem c (getDataSlot c h m._iterator) :: loopFwd c mh.2 mh.1 e fuel
      | none => []

/-- Backward traversal from `end()` to `begin()`: repeatedly stop if the
cursor equals `begin()`, else pre-decrement and read the element. -/
def loopBwd {α : Type} (c : Container α) : Heap → Impl → Impl → Nat → List (Option α)
  | _, _, _, 0 => []
  | h, m, b, fuel + 1 =>
    if m.equal c h b then []
    else
      match m.advance c h (-1) with
      | some mh => readElem c (getDataSlot c mh.2 mh.1._iterator) :: loopBwd c mh.2 mh.1 b fuel
      | none => []

/-- Source: `auto it = std::begin(iter); const auto endIt = std::end(iter);` —
the two cursors' implementations and the iterator heap after both. -/
def setupFwd {α : Type} (c : Container α) (ih rh : Heap) : Impl × Impl × Heap :=
  let b := SequentialIterable.beginC c ih rh (mkImpl c)
  let e := SequentialIterable.endC c b.2.1 b.2.2 (mkImpl c)
  (b.1.m_impl, e.1.m_impl, e.2.1)

/-- The elements printed by the forward loop of `basictest.cpp`. -/
def runForward {α : Type} (c : Container α) (ih rh : Heap) : List (Option α) :=
  let s := setupFwd c ih rh
  loopFwd c s.2.2 s.1 s.2.1 (c.elems.length + 1)

/-- The elements printed by the backward loop of `basictest.cpp`. -/
def runBackward {α : Type} (c : Container α) (ih rh : Heap) : List (Option α) :=
  let s := setupFwd c ih rh
  loopBwd c s.2.2 s.2.1 s.1 (c.elems.length + 1)

/-- Source: `size()` pre-increments applied to the begin cursor. -/
def advanceN {α : Type} (c : Container α) : Heap → Impl → Nat → Impl × Heap
  | h, m, 0 => (m, h)
  | h, m, k + 1 =>
    match m.advance c h 1 with
    | some mh => advanceN c mh.2 mh.1 k
    | none => (m, h)

/-- After `size()` pre-increments from `begin()`, does the cursor compare
equal to `end()`? -/
def forwardEndsAtEnd {α : Type} (c : Container α) (ih rh : Heap) : Bool :=
  let s := setupFwd c ih rh
  let f := advanceN c s.2.2 s.1 c.elems.length
  f.1.equal c f.2 s.2.1

/-! ### Basic lemmas -/

theorem Heap.read_write_self (h : Heap) (a v : Int) : (h.write a v).read a = v := by
  simp [Heap.write, Heap.read, upd]

theorem Heap.read_write_ne (h : Heap) (a v b : Int) (hne : b ≠ a) :
    (h.write a v).read b = h.read b := by
  simp [Heap.write, Heap.read, upd, hne]

theorem Impl.pos_advanceCore {α : Type} (c : Container α) (h : Heap) (m : Impl)
    (i : Int) :
    (m.advanceCore c h i).1.pos c (m.advanceCore c h i).2 = m.pos c h + i := by
  cases hr : c.rep <;>
    simp [Impl.advanceCore, advanceSlot, Impl.pos, slotPos, hr,
      Heap.read_write_self]
  omega

theorem Impl.pos_advanceCore_frame {α : Type} (c : Container α) (h : Heap)
    (m m₂ : Impl) (i : Int)
    (hsep : c.rep = IterRep.boxed → m₂._iterator ≠ m._iterator) :
    m₂.pos c (m.advanceCore c h i).2 = m₂.pos c h := by
  cases hr : c.rep <;>
    simp [Impl.advanceCore, advanceSlot, Impl.pos, slotPos, hr]
  exact Heap.read_write_ne _ _ _ _ (hsep hr)

theorem Impl.iterator_advanceCore_boxed {α : Type} (c : Container α) (h : Heap)
    (m : Impl) (i : Int) (hr : c.rep = IterRep.boxed) :
    (m.advanceCore c h i).1._iterator = m._iterator := by
  simp [Impl.advanceCore, advanceSlot, hr]

theorem Impl.caps_advanceCore {α : Type} (c : Container α) (h : Heap) (m : Impl)
    (i : Int) :
    (m.advanceCore c h i).1._iteratorCapabilities = m._iteratorCapabilities := by
  simp [Impl.advanceCore]

theorem Impl.advance_pos_step {α : Type} (c : Container α) (h : Heap) (m : Impl)
    (i : Int) (hi : 0 < i) : m.advance c h i = some (m.advanceCore c h i) := by
  simp [Impl.advance, hi]

theorem Impl.advance_bidir {α : Type} (c : Container α) (h : Heap) (m : Impl)
    (i : Int) (hc : m._iteratorCapabilities &&& BiDirectionalCapability ≠ 0) :
    m.advance c h i = some (m.advanceCore c h i) := by
  simp [Impl.advance, hc]

theorem Impl.equal_iff_pos {α : Type} (c : Container α) (h : Heap) (m₁ m₂ : Impl) :
    m₁.equal c h m₂ = true ↔ m₁.pos c h = m₂.pos c h := by
  cases hr : c.rep <;>
    simp [Impl.equal, equalSlot, Impl.pos, slotPos, hr]

theorem Impl.getData_eq {α : Type} (c : Container α) (h : Heap) (m : Impl) :
    getDataSlot c h m._iterator = c.base + m.pos c h := by
  cases hr : c.rep <;> simp [getDataSlot, Impl.pos, slotPos, hr]

theorem readElem_base_add {α : Type} (c : Container α) (k : Nat) :
    readElem c (c.base + (k : Int)) = c.elems[k]? := by
  have h1 : ¬ (c.base + (k : Int) < c.base) := by omega
  have h2 : (c.base + (k : Int) - c.base).toNat = k := by omega
  simp [readElem, h1, h2]

theorem setupFwd_spec {α : Type} (c : Container α) (ih rh : Heap) :
    (setupFwd c ih rh).1.pos c (setupFwd c ih rh).2.2 = 0 ∧
    (setupFwd c ih rh).2.1.pos c (setupFwd c ih rh).2.2 = (c.elems.length : Int) ∧
    (c.rep = IterRep.boxed →
      (setupFwd c ih rh).1._iterator ≠ (setupFwd c ih rh).2.1._iterator) ∧
    (setupFwd c ih rh).1._iteratorCapabilities = capsOf c.cat ∧
    (setupFwd c ih rh).2.1._iteratorCapabilities = capsOf c.cat := by
  cases hr : c.rep <;>
    refine ⟨?_, ?_, ?_, ?_, ?_⟩ <;>
      simp [setupFwd, SequentialIterable.beginC, SequentialIterable.endC,
        Impl.moveToBegin, Impl.moveToEnd, assignPos, hr, mkImpl, Impl.pos,
        slotPos, Heap.alloc, Heap.read, Heap.write, upd]

theorem loopFwd_spec {α : Type} (c : Container α) :
    ∀ (d k : Nat) (h : Heap) (m e : Impl),
      k + d = c.elems.length →
      m.pos c h = (k : Int) →
      e.pos c h = (c.elems.length : Int) →
      (c.rep = IterRep.boxed → m._iterator ≠ e._iterator) →
      loopFwd c h m e (d + 1) = (c.elems.drop k).map some := by
  intro d
  induction d with
  | zero =>
    intro k h m e hkd hm he _hsep
    have hk : k = c.elems.length := by omega
    have heq : m.equal c h e = true := by
      rw [Impl.equal_iff_pos, hm, he, hk]
    simp [loopFwd, heq, hk, List.drop_length]
  | succ d ihd =>
    intro k h m e hkd hm he hsep
    have hk : k < c.elems.length := by omega
    have hne : m.equal c h e = false := by
      rw [← Bool.not_eq_true, Impl.equal_iff_pos, hm, he]
      intro hcontra
      omega
    rw [loopFwd, hne]
    simp only [Bool.false_eq_true, if_false,
      Impl.advance_pos_step c h m 1 (by norm_num)]
    rw [Impl.getData_eq, hm, readElem_base_add,
      ihd (k + 1) (m.advanceCore c h 1).2 (m.advanceCore c h 1).1 e
        (by omega)
        (by rw [Impl.pos_advanceCore, hm]; push_cast; ring)
        (by
          rw [Impl.pos_advanceCore_frame]
          · exact he
          · intro hb
            exact fun hcontra => hsep hb hcontra.symm)
        (by
          intro hb
          rw [Impl.iterator_advanceCore_boxed c h m 1 hb]
          exact hsep hb),
      List.drop_eq_getElem_cons hk, List.getElem?_eq_getElem hk]
    simp [List.drop_eq_getElem_cons
      (show k < (c.elems.map some).length by simpa using hk)]

theorem runForward_eq {α : Type} (c : Container α) (ih rh : Heap) :
    runForward c ih rh = c.elems.map some := by
  obtain ⟨h0, hn, hsep, _, _⟩ := setupFwd_spec c ih rh
  have hmain := loopFwd_spec c c.elems.length 0 (setupFwd c ih rh).2.2
    (setupFwd c ih rh).1 (setupFwd c ih rh).2.1 (by omega) (by simpa using h0)
    hn hsep
  simpa [runForward] using hmain

theorem loopBwd_spec {α : Type} (c : Container α) :
    ∀ (k : Nat) (h : Heap) (m b : Impl),
      m.pos c h = (k : Int) →
      b.pos c h = 0 →
      k ≤ c.elems.length →
      (c.rep = IterRep.boxed → m._iterator ≠ b._iterator) →
      m._iteratorCapabilities &&& BiDirectionalCapability ≠ 0 →
      loopBwd c h m b (k + 1) = ((c.elems.take k).map some).reverse := by
  intro k
  induction k with
  | zero =>
    intro h m b hm hb _hk _hsep _hcaps
    have heq : m.equal c h b = true := by
      rw [Impl.equal_iff_pos, hm, hb]; rfl
    simp [loopBwd, heq]
  | succ k ihk =>
    intro h m b hm hb hk hsep hcaps
    have hklen : k < c.elems.length := by omega
    have hne : m.equal c h b = false := by
      rw [← Bool.not_eq_true, Impl.equal_iff_pos, hm, hb]
      intro hcontra
      omega
    rw [loopBwd, hne]
    simp only [Bool.false_eq_true, if_false,
      Impl.advance_bidir c h m (-1) hcaps]
    have hm' : (m.advanceCore c h (-1)).1.pos c (m.advanceCore c h (-1)).2 = (k : Int) := by
      rw [Impl.pos_advanceCore, hm]; push_cast; ring
    rw [Impl.getData_eq, hm', readElem_base_add,
      ihk (m.advanceCore c h (-1)).2 (m.advanceCore c h (-1)).1 b
        hm'
        (by
          rw [Impl.pos_advanceCore_frame]
          · exact hb
          · intro hbx
            exact fun hcontra => hsep hbx hcontra.symm)
        (by omega)
        (by
          intro hbx
          rw [Impl.iterator_advanceCore_boxed c h m (-1) hbx]
          exact hsep hbx)
        (by rw [Impl.caps_advanceCore]; exact hcaps),
      List.take_succ, List.getElem?_eq_getElem hklen]
    simp only [List.map_append]
    simp

theorem runBackward_eq {α : Type} (c : Container α) (ih rh : Heap)
    (hrev : SequentialIterable.canReverseIterate (mkImpl c) = true) :
    runBackward c ih rh = (c.elems.map some).reverse := by
  have hcaps : capsOf c.cat &&& BiDirectionalCapability ≠ 0 := by
    simpa [SequentialIterable.canReverseIterate, mkImpl] using hrev
  obtain ⟨h0, hn, hsep, _, hce⟩ := setupFwd_spec c ih rh
  have hmain := loopBwd_spec c c.elems.length (setupFwd c ih rh).2.2
    (setupFwd c ih rh).2.1 (setupFwd c ih rh).1 hn h0 (le_refl _)
    (fun hb hcontra => hsep hb hcontra.symm) (by rw [hce]; exact hcaps)
  simpa [runBackward, List.take_length] using hmain

theorem advanceN_spec {α : Type} (c : Container α) :
    ∀ (j : Nat) (k : Int) (h : Heap) (m e : Impl),
      m.pos c h = k →
      e.pos c h = (c.elems.length : Int) →
      (c.rep = IterRep.boxed → m._iterator ≠ e._iterator) →
      (advanceN c h m j).1.pos c (advanceN c h m j).2 = k + j ∧
      e.pos c (advanceN c h m j).2 = (c.elems.length : Int) := by
  intro j
  induction j with
  | zero =>
    intro k h m e hm he _hsep
    simpa [advanceN] using ⟨hm, he⟩
  | succ j ihj =>
    intro k h m e hm he hsep
    rw [advanceN]
    simp only [Impl.advance_pos_step c h m 1 (by norm_num)]
    have hrec := ihj (k + 1) (m.advanceCore c h 1).2 (m.advanceCore c h 1).1 e
      (by rw [Impl.pos_advanceCore, hm])
      (by
        rw [Impl.pos_advanceCore_frame]
        · exact he
        · intro hb
          exact fun hcontra => hsep hb hcontra.symm)
      (by
        intro hb
        rw [Impl.iterator_advanceCore_boxed c h m 1 hb]
        exact hsep hb)
    refine ⟨?_, hrec.2⟩
    rw [hrec.1]
    push_cast
    ring

theorem forwardEndsAtEnd_eq {α : Type} (c : Container α) (ih rh : Heap) :
    forwardEndsAtEnd c ih rh = true := by
  obtain ⟨h0, hn, hsep, _, _⟩ := setupFwd_spec c ih rh
  obtain ⟨hf, he⟩ := advanceN_spec c c.elems.length 0 (setupFwd c ih rh).2.2
    (setupFwd c ih rh).1 (setupFwd c ih rh).2.1 (by simpa using h0) hn hsep
  have : (advanceN c (setupFwd c ih rh).2.2 (setupFwd c ih rh).1
      c.elems.length).1.equal c
      (advanceN c (setupFwd c ih rh).2.2 (setupFwd c ih rh).1
        c.elems.length).2 (setupFwd c ih rh).2.1 = true := by
    rw [Impl.equal_iff_pos, hf, he]
    ring
  simpa [forwardEndsAtEnd] using this

theorem Registry.findTag_append (r₁ r₂ : Registry) (t : Nat) :
    Registry.findTag (r₁ ++ r₂) t =
      match Registry.findTag r₁ t with
      | some i => some i
      | none => Registry.findTag r₂ t := by
  induction r₁ with
  | nil => simp [Registry.findTag]
  | cons p r ih =>
    by_cases hp : p.1 = t <;> simp [Registry.findTag, hp, ih]

theorem regOfList_findTag (l : List (Nat × Impl)) :
    ∀ (r : Registry) (t : Nat),
      Registry.findTag (l.foldl (fun r p => r.insertTag p.1 p.2) r) t =
        match Registry.findTag r t with
        | some i => some i
        | none => firstTable l t := by
  induction l with
  | nil =>
    intro r t
    cases hf : Registry.findTag r t <;> simp [firstTable, hf]
  | cons p l ih =>
    intro r t
    rw [List.foldl_cons, ih]
    cases hp : Registry.findTag r p.1 with
    | some j =>
      rw [show r.insertTag p.1 p.2 = r by simp [Registry.insertTag, hp]]
      cases hf : Registry.findTag r t with
      | some i => rfl
      | none =>
        have hne : p.1 ≠ t := by
          intro he
          rw [he, hf] at hp
          cases hp
        simp [firstTable, hne]
    | none =>
      rw [show r.insertTag p.1 p.2 = r ++ [(p.1, p.2)] by
        simp [Registry.insertTag, hp]]
      rw [Registry.findTag_append]
      cases hf : Registry.findTag r t with
      | some i => rfl
      | none => by_cases hpt : p.1 = t <;> simp [Registry.findTag, firstTable, hpt]

theorem regOfList_eq_firstTable (l : List (Nat × Impl)) (t : Nat) :
    (regOfList l).findTag t = firstTable l t := by
  rw [regOfList, regOfList_findTag]
  rfl

theorem firstTable_eq_none (l : List (Nat × Impl)) (t : Nat)
    (h : ∀ p ∈ l, p.1 ≠ t) : firstTable l t = none := by
  induction l with
  | nil => rfl
  | cons p l ih =>
    have hp : p.1 ≠ t := h p (List.mem_cons_self p l)
    simp only [firstTable, if_neg hp]
    exact ih fun q hq => h q (List.mem_cons_of_mem p hq)

theorem Impl.copy_iterator_boxed {α : Type} (c : Container α) (h : Heap)
    (src : Impl) (hr : c.rep = IterRep.boxed) :
    (Impl.copy c h src).1._iterator = h.next := by
  simp [Impl.copy, copySlot, Heap.alloc, hr]

theorem Impl.advance_eq_some {α : Type} {c : Container α} {h : Heap} {m : Impl}
    {i : Int} {mh : Impl × Heap} (hs : m.advance c h i = some mh) :
    mh = m.advanceCore c h i := by
  unfold Impl.advance at hs
  split at hs
  · exact (Option.some.inj hs).symm
  · cases hs

/-! ### Concrete instances (the containers of `basictest.cpp`) -/

/-- A fresh heap. -/
def heap0 : Heap := ⟨0, fun _ => 0⟩

/-- Source: `std::vector<int> {4, 7, 4, 1}` at address 100: contiguous storage,
pointer iterator, random access (scenario 1 of `basictest.cpp`). -/
def vecInt : Container Int :=
  ⟨IterRep.ptr, 21, 22, IterCategory.randomAccess, 100, [4, 7, 4, 1]⟩

/-- Source: `std::list<int> {42, 57, 47, 15}` at address 300: node-based storage,
standalone class iterator, bidirectional (scenario 3 of `basictest.cpp`). -/
def listInt : Container Int :=
  ⟨IterRep.boxed, 31, 22, IterCategory.bidirectional, 300, [42, 57, 47, 15]⟩

/-- A second `std::list<int>` instance `{5, 6}` — same static type as
`listInt` (same type tag, same element tag) but a different object at a
different address. -/
def listInt2 : Container Int :=
  ⟨IterRep.boxed, 31, 22, IterCategory.bidirectional, 400, [5, 6]⟩

/-- A `std::list<Variant>` holding two nested variants: its element type
tag is `variantTag`. -/
def varList : Container VariantData :=
  ⟨IterRep.boxed, 41, variantTag, IterCategory.bidirectional, 500,
    [⟨22, 900⟩, ⟨22, 904⟩]⟩

/-! ### Claims -/

/-- C1: for every wrapped container C, the Iterable's size() equals the
true element count of C, and forward traversal from begin() via repeated
pre-increment visits exactly size() elements, in C's insertion order,
after which the cursor compares equal to end(). -/
theorem size_and_forward_traversal {α : Type} (c : Container α) (ih rh : Heap)
    (hbase : c.base ≠ 0) :
    SequentialIterable.size c (mkImpl c) = some (c.elems.length : Int) ∧
    runForward c ih rh = c.elems.map some ∧
    forwardEndsAtEnd c ih rh = true := by
  refine ⟨?_, runForward_eq c ih rh, forwardEndsAtEnd_eq c ih rh⟩
  simp [SequentialIterable.size, Impl.size, mkImpl, hbase]

/-- Witness for C1, at scenario 1 of `basictest.cpp`. -/
theorem size_and_forward_traversal_witness :
    vecInt.base ≠ 0 ∧
    (SequentialIterable.size vecInt (mkImpl vecInt) =
        some (vecInt.elems.length : Int) ∧
      runForward vecInt heap0 heap0 = vecInt.elems.map some ∧
      forwardEndsAtEnd vecInt heap0 heap0 = true) :=
  ⟨by decide, size_and_forward_traversal vecInt heap0 heap0 (by decide)⟩

/-- C2: for every wrapped container whose Iterable reports
canReverseIterate() true, traversal from end() backward via repeated
pre-decrement until reaching begin() visits exactly the elements visited
by forward traversal, in exactly reverse order. -/
theorem backward_traversal_reverses_forward {α : Type} (c : Container α)
    (ih rh : Heap)
    (hrev : SequentialIterable.canReverseIterate (mkImpl c) = true) :
    runBackward c ih rh = (runForward c ih rh).reverse := by
  rw [runForward_eq c ih rh, runBackward_eq c ih rh hrev]

/-- Witness for C2, at scenario 3 of `basictest.cpp` (the node-based
bidirectional list `[42, 57, 47, 15]`). -/
theorem backward_traversal_reverses_forward_witness :
    SequentialIterable.canReverseIterate (mkImpl listInt) = true ∧
    runBackward listInt heap0 heap0 = (runForward listInt heap0 heap0).reverse :=
  ⟨by decide, backward_traversal_reverses_forward listInt heap0 heap0 (by decide)⟩

/-- C3 (code bug): the claim says `reinterpretAsIterable()` wraps the
OpaqueValue's *own* stored data reference as the container address.  The
code instead returns the registry's stored implementation wholesale, whose
`_iterable` is the address of the container registered *first* for that
type tag: after wrapping `listInt` and then the same-typed `listInt2`, the
Iterable obtained from `listInt2`'s variant still points at `listInt`'s
address (300), not at `listInt2`'s own data (400), so it iterates (and
sizes) the wrong container. -/
theorem asIterable_returns_first_registered_container :
    (Variant.asSequentialIterable
        (Variant.ofContainer listInt2 (Variant.ofContainer listInt []).2).2
        (Variant.ofContainer listInt2 (Variant.ofContainer listInt []).2).1) =
      some (mkImpl listInt) ∧
    (mkImpl listInt)._iterable = 300 ∧
    (Variant.ofContainer listInt2 (Variant.ofContainer listInt []).2).1.data = 400 ∧
    (300 : Int) ≠ 400 := by decide

/-- C4: for every OpaqueValue whose tag was never registered as a container
type (no registration event in the sequence that built the registry carries
that tag — in particular one built from a non-container scalar, whose
construction registers nothing), requesting the Iterable view fatally
aborts (the lookup assertion fires) rather than returning any Iterable. -/
theorem asIterable_unregistered_tag_fatal (l : List (Nat × Impl)) (t : Nat)
    (a : Int) (h : ∀ p ∈ l, p.1 ≠ t) :
    Variant.asSequentialIterable (regOfList l) ⟨t, a⟩ = none := by
  show (regOfList l).findTag t = none
  rw [regOfList_eq_firstTable]
  exact firstTable_eq_none l t h

/-- Witness for C4: a registry holding only `listInt`'s table, queried with
the tag of a scalar `double` (tag 77) that was never registered. -/
theorem asIterable_unregistered_tag_fatal_witness :
    (∀ p ∈ [(listInt.tag, mkImpl listInt)], p.1 ≠ 77) ∧
    Variant.asSequentialIterable (regOfList [(listInt.tag, mkImpl listInt)])
      ⟨77, 600⟩ = none :=
  ⟨by decide,
    asIterable_unregistered_tag_fatal [(listInt.tag, mkImpl listInt)] 77 600
      (by decide)⟩

/-- C5: registration is idempotent — inserting a tag that is already
present leaves the registry (and in particular the existing table)
untouched, and for any sequence of registration events the registry maps
each tag to the table of the *first* registration with that tag. -/
theorem registry_insertion_idempotent (r : Registry) (t : Nat) (i i2 : Impl)
    (l : List (Nat × Impl)) (t2 : Nat) :
    (r.findTag t = some i → r.insertTag t i2 = r) ∧
    (regOfList l).findTag t2 = firstTable l t2 := by
  refine ⟨fun h => ?_, regOfList_eq_firstTable l t2⟩
  simp [Registry.insertTag, h]

/-- Witness for C5: re-registering `listInt`'s tag with `listInt2`'s table
is a no-op, and lookups return the first-registered table. -/
theorem registry_insertion_idempotent_witness :
    ((regOfList [(listInt.tag, mkImpl listInt)]).findTag listInt.tag =
        some (mkImpl listInt) →
      (regOfList [(listInt.tag, mkImpl listInt)]).insertTag listInt.tag
        (mkImpl listInt2) = regOfList [(listInt.tag, mkImpl listInt)]) ∧
    (regOfList [(listInt.tag, mkImpl listInt)]).findTag listInt.tag =
      firstTable [(listInt.tag, mkImpl listInt)] listInt.tag :=
  registry_insertion_idempotent (regOfList [(listInt.tag, mkImpl listInt)])
    listInt.tag (mkImpl listInt) (mkImpl listInt2)
    [(listInt.tag, mkImpl listInt)] listInt.tag

/-- C6: invoking a backward or non-positive-step operation (decrement, or
advance by n ≤ 0) on a cursor whose capability bitmask lacks
Bidirectional is a fatal precondition violation (the assertion in
`advance` fires); conversely, on a cursor whose bitmask includes
Bidirectional, or for any strictly positive step, the assertion never
fires. -/
theorem advance_capability_assertion {α : Type} (c : Container α) (h : Heap)
    (cur : Cursor) (i : Int) :
    (cur.m_impl.advance c h i = none ↔
      i ≤ 0 ∧ cur.m_impl._iteratorCapabilities &&& BiDirectionalCapability = 0) ∧
    (Cursor.preDec c h cur = none ↔
      cur.m_impl._iteratorCapabilities &&& BiDirectionalCapability = 0) ∧
    (0 < i → (cur.m_impl.advance c h i).isSome = true) := by
  refine ⟨?_, ?_, fun hi => ?_⟩
  · by_cases hP : 0 < i ∨
        cur.m_impl._iteratorCapabilities &&& BiDirectionalCapability ≠ 0
    · simp only [Impl.advance, if_pos hP]
      constructor
      · intro hx
        cases hx
      · rintro ⟨h1, h2⟩
        rcases hP with hi | hc
        · omega
        · exact absurd h2 hc
    · simp only [Impl.advance, if_neg hP]
      push_neg at hP
      exact ⟨fun _ => ⟨hP.1, hP.2⟩, fun _ => trivial⟩
  · by_cases hc : cur.m_impl._iteratorCapabilities &&& BiDirectionalCapability = 0
    · have hadv : cur.m_impl.advance c h (-1) = none := by
        simp [Impl.advance, hc]
      simp [Cursor.preDec, hadv, hc]
    · rw [Cursor.preDec, Impl.advance_bidir c h cur.m_impl (-1) hc]
      simp [hc]
  · rw [Impl.advance_pos_step c h cur.m_impl i hi]
    rfl

/-- Witness for C6: a forward-only cursor (singly-linked list capability
mask) at step -1. -/
theorem advance_capability_assertion_witness :
    ((⟨⟨700, 0, 23, capsOf IterCategory.forward⟩, 0⟩ : Cursor).m_impl.advance
        vecInt heap0 (-1) = none ↔
      (-1 : Int) ≤ 0 ∧
        (⟨⟨700, 0, 23, capsOf IterCategory.forward⟩, 0⟩ :
            Cursor).m_impl._iteratorCapabilities &&&
          BiDirectionalCapability = 0) ∧
    (Cursor.preDec vecInt heap0 ⟨⟨700, 0, 23, capsOf IterCategory.forward⟩, 0⟩ =
        none ↔
      (⟨⟨700, 0, 23, capsOf IterCategory.forward⟩, 0⟩ :
          Cursor).m_impl._iteratorCapabilities &&&
        BiDirectionalCapability = 0) ∧
    (0 < (-1 : Int) →
      ((⟨⟨700, 0, 23, capsOf IterCategory.forward⟩, 0⟩ :
          Cursor).m_impl.advance vecInt heap0 (-1)).isSome = true) :=
  advance_capability_assertion vecInt heap0
    ⟨⟨700, 0, 23, capsOf IterCategory.forward⟩, 0⟩ (-1)

theorem postInc_fst {α : Type} (c : Container α) (ih rh : Heap) (cur : Cursor) :
    (Cursor.postInc c ih rh cur).1.m_impl = (Impl.copy c ih cur.m_impl).1 := rfl

theorem postInc_snd {α : Type} (c : Container α) (ih rh : Heap) (cur : Cursor) :
    (Cursor.postInc c ih rh cur).2.1.m_impl =
      (cur.m_impl.advanceCore c (Impl.copy c ih cur.m_impl).2 1).1 := rfl

theorem postInc_ih {α : Type} (c : Container α) (ih rh : Heap) (cur : Cursor) :
    (Cursor.postInc c ih rh cur).2.2.1 =
      (cur.m_impl.advanceCore c (Impl.copy c ih cur.m_impl).2 1).2 := rfl

/-- Advancing `m₁` (through the table's advance entry point) in heap `h`
leaves `m₂`'s position unchanged. -/
def detachedAfter {α : Type} (c : Container α) (h : Heap) (m₁ m₂ : Impl)
    (i : Int) : Prop :=
  m₂.pos c (m₁.advanceCore c h i).2 = m₂.pos c h

/-- The begin cursor of the boxed list `listInt` with the heaps it leaves
behind. -/
def c7begin : Cursor × Heap × Heap :=
  SequentialIterable.beginC listInt heap0 heap0 (mkImpl listInt)

/-- C7: a value-copy of a cursor (the cursor returned by post-increment,
or by cursor + n) does not alias the original: advancing the value-copy
afterwards leaves the original's position unchanged, and advancing the
original leaves the value-copy's position unchanged. -/
theorem value_copy_does_not_alias {α : Type} (c : Container α) (ih rh : Heap)
    (cur : Cursor) (i : Int)
    (hok : c.rep = IterRep.boxed → cur.m_impl._iterator < ih.next) :
    detachedAfter c (Cursor.postInc c ih rh cur).2.2.1
      (Cursor.postInc c ih rh cur).1.m_impl
      (Cursor.postInc c ih rh cur).2.1.m_impl i ∧
    detachedAfter c (Cursor.postInc c ih rh cur).2.2.1
      (Cursor.postInc c ih rh cur).2.1.m_impl
      (Cursor.postInc c ih rh cur).1.m_impl i ∧
    (∀ (j : Int) (d : Cursor) (ih2 rh2 : Heap),
      Cursor.add c ih rh cur j = some (d, ih2, rh2) →
      detachedAfter c ih2 d.m_impl cur.m_impl i ∧
      detachedAfter c ih2 cur.m_impl d.m_impl i) := by
  have hcopy : c.rep = IterRep.boxed →
      (Impl.copy c ih cur.m_impl).1._iterator = ih.next :=
    fun hr => Impl.copy_iterator_boxed c ih cur.m_impl hr
  have hadv : c.rep = IterRep.boxed →
      (cur.m_impl.advanceCore c (Impl.copy c ih cur.m_impl).2 1).1._iterator =
        cur.m_impl._iterator :=
    fun hr => Impl.iterator_advanceCore_boxed c _ cur.m_impl 1 hr
  refine ⟨?_, ?_, ?_⟩
  · rw [detachedAfter, postInc_fst, postInc_snd, postInc_ih]
    apply Impl.pos_advanceCore_frame
    intro hr
    rw [hadv hr, hcopy hr]
    exact ne_of_lt (hok hr)
  · rw [detachedAfter, postInc_fst, postInc_snd, postInc_ih]
    apply Impl.pos_advanceCore_frame
    intro hr
    rw [hadv hr, hcopy hr]
    exact (ne_of_lt (hok hr)).symm
  · intro j d ih2 rh2 hadd
    cases hm : (Impl.copy c ih cur.m_impl).1.advance c
        (Impl.copy c ih cur.m_impl).2 j with
    | none => simp [Cursor.add, hm] at hadd
    | some mh =>
      simp only [Cursor.add, hm, Option.some.injEq, Prod.mk.injEq] at hadd
      obtain ⟨hd, hih, -⟩ := hadd
      have hmh := Impl.advance_eq_some hm
      have hdslot : c.rep = IterRep.boxed → d.m_impl._iterator = ih.next := by
        intro hr
        rw [← hd]
        show mh.1._iterator = ih.next
        rw [hmh, Impl.iterator_advanceCore_boxed _ _ _ _ hr, hcopy hr]
      refine ⟨?_, ?_⟩
      · rw [detachedAfter]
        apply Impl.pos_advanceCore_frame
        intro hr
        rw [hdslot hr]
        exact ne_of_lt (hok hr)
      · rw [detachedAfter]
        apply Impl.pos_advanceCore_frame
        intro hr
        rw [hdslot hr]
        exact (ne_of_lt (hok hr)).symm

/-- Witness for C7 at the boxed list's begin cursor. -/
theorem value_copy_does_not_alias_witness :
    (listInt.rep = IterRep.boxed →
      c7begin.1.m_impl._iterator < c7begin.2.1.next) ∧
    (detachedAfter listInt
        (Cursor.postInc listInt c7begin.2.1 c7begin.2.2 c7begin.1).2.2.1
        (Cursor.postInc listInt c7begin.2.1 c7begin.2.2 c7begin.1).1.m_impl
        (Cursor.postInc listInt c7begin.2.1 c7begin.2.2 c7begin.1).2.1.m_impl 2 ∧
      detachedAfter listInt
        (Cursor.postInc listInt c7begin.2.1 c7begin.2.2 c7begin.1).2.2.1
        (Cursor.postInc listInt c7begin.2.1 c7begin.2.2 c7begin.1).2.1.m_impl
        (Cursor.postInc listInt c7begin.2.1 c7begin.2.2 c7begin.1).1.m_impl 2 ∧
      (∀ (j : Int) (d : Cursor) (ih2 rh2 : Heap),
        Cursor.add listInt c7begin.2.1 c7begin.2.2 c7begin.1 j =
            some (d, ih2, rh2) →
        detachedAfter listInt ih2 d.m_impl c7begin.1.m_impl 2 ∧
        detachedAfter listInt ih2 c7begin.1.m_impl d.m_impl 2)) :=
  ⟨by decide,
    value_copy_does_not_alias listInt c7begin.2.1 c7begin.2.2 c7begin.1 2
      (by decide)⟩

/-- The begin cursor of the pointer-like vector `vecInt` with its heaps. -/
def c8begin : Cursor × Heap × Heap :=
  SequentialIterable.beginC vecInt heap0 heap0 (mkImpl vecInt)

/-- C8 counterexample: on a pointer-like (contiguous, `std::vector`)
cursor, an aliasing copy (copy construction) shares only the refcount
cell: the implementation struct — including the `void *_iterator` slot —
is copied by value, so a subsequent pre-increment through the original
handle is NOT observed through the copy: the copy stays at position 0
while the original moves to position 1. -/
theorem aliasing_copy_ptr_counterexample :
    (Cursor.aliasCopy c8begin.2.2 c8begin.1).1.m_impl.pos vecInt
        (Cursor.preInc vecInt c8begin.2.1 c8begin.1).2 = 0 ∧
    (Cursor.preInc vecInt c8begin.2.1 c8begin.1).1.m_impl.pos vecInt
        (Cursor.preInc vecInt c8begin.2.1 c8begin.1).2 = 1 ∧
    ¬ ((Cursor.aliasCopy c8begin.2.2 c8begin.1).1.m_impl.pos vecInt
          (Cursor.preInc vecInt c8begin.2.1 c8begin.1).2 =
        (Cursor.preInc vecInt c8begin.2.1 c8begin.1).1.m_impl.pos vecInt
          (Cursor.preInc vecInt c8begin.2.1 c8begin.1).2) := by decide

/-- Observation through an aliasing handle: after the table's advance
entry point mutates `m₁` in heap `h`, handle `m₂` reads the advanced
position. -/
def observedAfter {α : Type} (c : Container α) (h : Heap) (m₁ m₂ : Impl)
    (i : Int) : Prop :=
  m₂.pos c (m₁.advanceCore c h i).2 =
    (m₁.advanceCore c h i).1.pos c (m₁.advanceCore c h i).2

theorem observedAfter_same_slot {α : Type} (c : Container α) (h : Heap)
    (m₁ m₂ : Impl) (i : Int) (hr : c.rep = IterRep.boxed)
    (hslot : m₂._iterator = m₁._iterator) : observedAfter c h m₁ m₂ i := by
  unfold observedAfter Impl.pos
  rw [hslot, Impl.iterator_advanceCore_boxed c h m₁ i hr]

/-- An iterator heap with three boxed `std::list<int>::const_iterator`
cells: cell 0 holds position 0, cell 1 position 3, cell 2 position 0. -/
def c8ih : Heap := (((heap0.alloc 0).2.alloc 3).2.alloc 0).2

/-- A boxed cursor over `listInt` whose box is cell 0 (position 0). -/
def c8t1 : Cursor := ⟨⟨300, 0, 22, 3⟩, 10⟩

/-- A boxed cursor over `listInt` whose box is cell 1 (position 3). -/
def c8o1 : Cursor := ⟨⟨300, 1, 22, 3⟩, 11⟩

/-- A boxed cursor over `listInt` whose box is cell 0 (position 0). -/
def c8t2 : Cursor := ⟨⟨300, 0, 22, 3⟩, 12⟩

/-- A boxed cursor over `listInt` whose box is cell 2 — a box distinct
from `c8t2`'s holding the same position 0, as produced by two independent
`begin()` calls. -/
def c8o2 : Cursor := ⟨⟨300, 2, 22, 3⟩, 13⟩

/-- C8 (amended): for cursors over node-based containers (heap-boxed
standalone iterators): a copy-constructed aliasing copy shares the
underlying iterator cell and count cell with the original, increments the
shared refcount, and a subsequent mutation through either handle is
observed through the other.  Plain copy assignment behaves that way only
when the two cursors' underlying iterators compare unequal at assignment
time (`operator=` guards adoption with an equality test): then the target
adopts the source's implementation and count cell and increments it, and
mutation through either handle is observed through the other.  When the
iterators compare equal, the target keeps its own box and its own count
cell (merely incrementing its own count), no sharing is established, and
a mutation through the source is not observed through the target.  (For
pointer-like cursors only the refcount is ever shared — see the
counterexample.) -/
theorem aliasing_copy_semantics {α : Type} (c : Container α) (ih rh : Heap)
    (cur t1 o1 t2 o2 : Cursor) (i : Int)
    (hr : c.rep = IterRep.boxed)
    (hne : t1.m_impl.equal c ih o1.m_impl = false)
    (heq : t2.m_impl.equal c ih o2.m_impl = true)
    (hsep : t2.m_impl._iterator ≠ o2.m_impl._iterator) :
    ((Cursor.aliasCopy rh cur).1.m_impl = cur.m_impl ∧
      (Cursor.aliasCopy rh cur).1.ref = cur.ref ∧
      (Cursor.aliasCopy rh cur).2.read cur.ref = rh.read cur.ref + 1 ∧
      observedAfter c ih cur.m_impl (Cursor.aliasCopy rh cur).1.m_impl i ∧
      observedAfter c ih (Cursor.aliasCopy rh cur).1.m_impl cur.m_impl i) ∧
    ((Cursor.assign c ih rh t1 o1).1.m_impl = o1.m_impl ∧
      (Cursor.assign c ih rh t1 o1).1.ref = o1.ref ∧
      (Cursor.assign c ih rh t1 o1).2.read o1.ref = rh.read o1.ref + 1 ∧
      observedAfter c ih o1.m_impl (Cursor.assign c ih rh t1 o1).1.m_impl i ∧
      observedAfter c ih (Cursor.assign c ih rh t1 o1).1.m_impl o1.m_impl i) ∧
    ((Cursor.assign c ih rh t2 o2).1.m_impl = t2.m_impl ∧
      (Cursor.assign c ih rh t2 o2).1.ref = t2.ref ∧
      (Cursor.assign c ih rh t2 o2).2.read t2.ref = rh.read t2.ref + 1 ∧
      detachedAfter c ih o2.m_impl (Cursor.assign c ih rh t2 o2).1.m_impl i) := by
  have hA : Cursor.assign c ih rh t1 o1 =
      (⟨o1.m_impl, o1.ref⟩, rh.write o1.ref (rh.read o1.ref + 1)) := by
    simp [Cursor.assign, hne]
  have hB : Cursor.assign c ih rh t2 o2 =
      (⟨t2.m_impl, t2.ref⟩, rh.write t2.ref (rh.read t2.ref + 1)) := by
    simp [Cursor.assign, heq]
  refine ⟨⟨rfl, rfl, Heap.read_write_self rh cur.ref _, ?_, ?_⟩, ?_, ?_⟩
  · exact observedAfter_same_slot c ih cur.m_impl _ i hr rfl
  · exact observedAfter_same_slot c ih _ cur.m_impl i hr rfl
  · rw [hA]
    exact ⟨rfl, rfl, Heap.read_write_self rh o1.ref _,
      observedAfter_same_slot c ih o1.m_impl _ i hr rfl,
      observedAfter_same_slot c ih _ o1.m_impl i hr rfl⟩
  · rw [hB]
    refine ⟨rfl, rfl, Heap.read_write_self rh t2.ref _, ?_⟩
    exact Impl.pos_advanceCore_frame c ih o2.m_impl t2.m_impl i fun _ => hsep

/-- Witness for the amended C8: two pairs of boxed list cursors, one pair
at unequal positions (adoption happens) and one pair of distinct boxes at
equal positions (adoption skipped), plus a copy-constructed alias. -/
theorem aliasing_copy_semantics_witness :
    listInt.rep = IterRep.boxed ∧
    c8t1.m_impl.equal listInt c8ih c8o1.m_impl = false ∧
    c8t2.m_impl.equal listInt c8ih c8o2.m_impl = true ∧
    c8t2.m_impl._iterator ≠ c8o2.m_impl._iterator ∧
    (((Cursor.aliasCopy heap0 c8t1).1.m_impl = c8t1.m_impl ∧
      (Cursor.aliasCopy heap0 c8t1).1.ref = c8t1.ref ∧
      (Cursor.aliasCopy heap0 c8t1).2.read c8t1.ref =
        heap0.read c8t1.ref + 1 ∧
      observedAfter listInt c8ih c8t1.m_impl
        (Cursor.aliasCopy heap0 c8t1).1.m_impl 1 ∧
      observedAfter listInt c8ih (Cursor.aliasCopy heap0 c8t1).1.m_impl
        c8t1.m_impl 1) ∧
    ((Cursor.assign listInt c8ih heap0 c8t1 c8o1).1.m_impl = c8o1.m_impl ∧
      (Cursor.assign listInt c8ih heap0 c8t1 c8o1).1.ref = c8o1.ref ∧
      (Cursor.assign listInt c8ih heap0 c8t1 c8o1).2.read c8o1.ref =
        heap0.read c8o1.ref + 1 ∧
      observedAfter listInt c8ih c8o1.m_impl
        (Cursor.assign listInt c8ih heap0 c8t1 c8o1).1.m_impl 1 ∧
      observedAfter listInt c8ih
        (Cursor.assign listInt c8ih heap0 c8t1 c8o1).1.m_impl c8o1.m_impl 1) ∧
    ((Cursor.assign listInt c8ih heap0 c8t2 c8o2).1.m_impl = c8t2.m_impl ∧
      (Cursor.assign listInt c8ih heap0 c8t2 c8o2).1.ref = c8t2.ref ∧
      (Cursor.assign listInt c8ih heap0 c8t2 c8o2).2.read c8t2.ref =
        heap0.read c8t2.ref + 1 ∧
      detachedAfter listInt c8ih c8o2.m_impl
        (Cursor.assign listInt c8ih heap0 c8t2 c8o2).1.m_impl 1)) :=
  ⟨by decide, by decide, by decide, by decide,
    aliasing_copy_semantics listInt c8ih heap0 c8t1 c8t1 c8o1 c8t2 c8o2 1
      (by decide) (by decide) (by decide) (by decide)⟩

/-- C9 (code bug): the destructor tests the value returned by
`ref->fetch_sub(1)`, which is the count held BEFORE the decrement.  The
sole cursor returned by begin() holds a count cell of value 1, so dropping
the last (only) referencing handle reads 1, the `!1` test fails, and the
table's destroy entry point is NOT invoked — the boxed iterator leaks.
The claim says exactly the drop of the last handle triggers destroy. -/
theorem destroy_not_invoked_on_last_drop :
    c7begin.2.2.read c7begin.1.ref = 1 ∧
    (Cursor.drop listInt c7begin.2.1 c7begin.2.2 c7begin.1).1 = false := by
  decide

/-- A cursor over `varList` (element tag = `variantTag`) at position 0. -/
def varCursor : Impl := ⟨500, 0, variantTag, 3⟩

/-- A cursor over `vecInt` (element tag 22) at position 0. -/
def intCursor : Impl := ⟨100, 100, 22, 7⟩

/-- C10: dereferencing a cursor distinguishes nested Variants: if the
table's recorded element type tag equals the tag of the Variant type
itself, `operator*` returns a copy of the stored Variant element directly
(no double wrapping); for every other element tag it returns a fresh
Variant whose tag is the table's recorded element tag and whose data is
the address of the current element (no memory is read as a Variant). -/
theorem deref_distinguishes_nested_variant {α : Type}
    (cv : Container VariantData) (c : Container α) (h : Heap) (mv m : Impl)
    (kv k : Nat)
    (htv : mv._metaType_id = variantTag)
    (hpv : mv.pos cv h = (kv : Int)) (hkv : kv < cv.elems.length)
    (ht : m._metaType_id ≠ variantTag) (hp : m.pos c h = (k : Int)) :
    derefOp cv (readElem cv) h mv = some (cv.elems.get ⟨kv, hkv⟩) ∧
    (∀ rv : Int → Option VariantData,
      derefOp c rv h m = some ⟨m._metaType_id, c.base + (k : Int)⟩) := by
  refine ⟨?_, fun rv => ?_⟩
  · simp only [derefOp, Impl.getCurrent, htv, if_true]
    rw [Impl.getData_eq, hpv, readElem_base_add, List.getElem?_eq_getElem hkv]
    simp
  · simp only [derefOp, Impl.getCurrent, if_neg ht]
    rw [Impl.getData_eq, hp]

/-- Witness for C10: a boxed list of nested Variants versus the int
vector. -/
theorem deref_distinguishes_nested_variant_witness :
    varCursor._metaType_id = variantTag ∧
    varCursor.pos varList heap0 = ((0 : Nat) : Int) ∧
    0 < varList.elems.length ∧
    intCursor._metaType_id ≠ variantTag ∧
    intCursor.pos vecInt heap0 = ((0 : Nat) : Int) ∧
    (derefOp varList (readElem varList) heap0 varCursor =
        some (varList.elems.get ⟨0, by decide⟩) ∧
      (∀ rv : Int → Option VariantData,
        derefOp vecInt rv heap0 intCursor =
          some ⟨intCursor._metaType_id, vecInt.base + ((0 : Nat) : Int)⟩)) :=
  ⟨by decide, by decide, by decide, by decide, by decide,
    deref_distinguishes_nested_variant varList vecInt heap0 varCursor intCursor
      0 0 (by decide) (by decide) (by decide) (by decide) (by decide)⟩

end TypeErasure
